import Mathlib


/-!
Verification development for the backlog agent of the gsn repository
(`gsn/tools/backlog/python/BinaryPlugin.py` and
`gsn/tools/backlog/python/ScheduleHandler.py`).

Machine integers are modelled as `Nat` (Python integers are unbounded;
32-bit wire fields are reduced mod 2^32 where the source packs them).
Byte strings are `List Nat` (each element a byte value).  Fallible code
returns `Option`/`Except`.
-/

/-! ## zlib CRC-32

Modelled from the spec of Python's `zlib.crc32(data, value)` (the zlib
library itself is not part of this repository): the standard reflected
CRC-32 with polynomial 0xEDB88320, processing bytes least-significant-bit
first; `value` is the running checksum, defaulting to 0, and
`zlib.crc32(a ++ b) = zlib.crc32(b, zlib.crc32(a))`. -/

def crcPoly : Nat := 0xEDB88320

def crcMask : Nat := 0xFFFFFFFF

def crcRound (c : Nat) : Nat :=
  if c % 2 = 1 then (c / 2) ^^^ crcPoly else c / 2

def crcByte (c b : Nat) : Nat :=
  crcRound (crcRound (crcRound (crcRound
    (crcRound (crcRound (crcRound (crcRound (c ^^^ (b % 256)))))))))

def crcRaw (c : Nat) (bs : List Nat) : Nat :=
  bs.foldl crcByte c

/-- `zlib.crc32(bs, v)`: `v` is the checksum computed so far. -/
def zcrc32v (v : Nat) (bs : List Nat) : Nat :=
  (crcRaw (v ^^^ crcMask) bs) ^^^ crcMask

/-- `zlib.crc32(bs)`: one-argument form, starting value 0. -/
def zcrc32 (bs : List Nat) : Nat := zcrc32v 0 bs

theorem xor_mask_cancel (x : Nat) : (x ^^^ crcMask) ^^^ crcMask = x := by
  rw [Nat.xor_assoc, Nat.xor_self, Nat.xor_zero]

theorem zcrc32v_append (v : Nat) (a b : List Nat) :
    zcrc32v (zcrc32v v a) b = zcrc32v v (a ++ b) := by
  simp [zcrc32v, crcRaw, List.foldl_append, xor_mask_cancel]

theorem zcrc32v_nil (c : Nat) : zcrc32v c [] = c := by
  simp [zcrc32v, crcRaw, xor_mask_cancel]

/-! ## BinaryPlugin: the chunked transfer loop

From `BinaryPluginClass.run` (BinaryPlugin.py lines 410-501).  A popped
queue entry is a pair `(filename, size-recorded-at-enqueue)`; the chunk
loop reads the file on disk until EOF, so it is a function of the file's
contents at read time, which need not have the enqueue-recorded length. -/

def CHUNK_SIZE : Nat := 64000

theorem chunk_size_pos : 0 < CHUNK_SIZE := by unfold CHUNK_SIZE; omega

/-- The Python local variable `crc`: `None` before the first chunk.
`if crc: crc = zlib.crc32(part, crc) else: crc = zlib.crc32(part)` —
the `else` branch is taken both for `None` and for a running value 0
(Python falsiness); since `zlib.crc32(p)` equals `zlib.crc32(p, 0)`, the
value-0 restart coincides with continuing. -/
def crcStep (acc : Option Nat) (part : List Nat) : Nat :=
  match acc with
  | some c => if c ≠ 0 then zcrc32v c part else zcrc32 part
  | none => zcrc32 part

theorem crcStep_some (c : Nat) (part : List Nat) :
    crcStep (some c) part = zcrc32v c part := by
  by_cases h : c = 0
  · subst h; simp [crcStep, zcrc32]
  · simp [crcStep, h]

structure ChunkPacket where
  number : Nat
  payload : List Nat
deriving DecidableEq

/-- Lines 466-501: read `CHUNK_SIZE` bytes, update the running CRC, and
on an empty read emit the CRC packet; otherwise emit a CHUNK packet with
the current chunk number and continue.  Returns the emitted CHUNK
packets and the value placed in the CRC packet. -/
def sendChunks (content : List Nat) (acc : Option Nat) (n : Nat) :
    List ChunkPacket × Nat :=
  if h : content.take CHUNK_SIZE = [] then
    ([], crcStep acc (content.take CHUNK_SIZE))
  else
    let r := sendChunks (content.drop CHUNK_SIZE)
      (some (crcStep acc (content.take CHUNK_SIZE))) (n + 1)
    ({ number := n, payload := content.take CHUNK_SIZE } :: r.1, r.2)
termination_by content.length
decreasing_by
  have hc : content ≠ [] := by rintro rfl; simp at h
  have h1 := List.length_pos.mpr hc
  have h2 := chunk_size_pos
  simp only [List.length_drop]
  omega

theorem sendChunks_nil (acc : Option Nat) (n : Nat) :
    sendChunks [] acc n = ([], crcStep acc []) := by
  rw [sendChunks]; simp

/-- Evaluation lemma for a file that fits in a single chunk. -/
theorem sendChunks_short (content : List Nat) (hne : content ≠ [])
    (hlen : content.length ≤ CHUNK_SIZE) (acc : Option Nat) (n : Nat) :
    sendChunks content acc n
      = ([{ number := n, payload := content }], crcStep acc content) := by
  have h1 : content.take CHUNK_SIZE = content := List.take_of_length_le hlen
  have h2 : content.drop CHUNK_SIZE = [] := List.drop_eq_nil_of_le hlen
  rw [sendChunks]
  rw [dif_neg (by rw [h1]; exact hne)]
  simp only [h1, h2, sendChunks_nil]
  rw [crcStep_some, zcrc32v_nil]

theorem sendChunks_crc (L : Nat) (content : List Nat) (hL : content.length ≤ L)
    (c n : Nat) : (sendChunks content (some c) n).2 = zcrc32v c content := by
  induction L generalizing content c n with
  | zero =>
    have : content = [] := List.length_eq_zero.mp (Nat.le_zero.mp hL)
    subst this
    rw [sendChunks_nil, crcStep_some]
  | succ L ih =>
    rw [sendChunks]
    by_cases h : content.take CHUNK_SIZE = []
    · have : content = [] := by
        rcases List.take_eq_nil_iff.mp h with h' | h'
        · exact absurd h' (Nat.pos_iff_ne_zero.mp chunk_size_pos)
        · exact h'
      subst this
      simp [h, crcStep_some, zcrc32v_nil]
    · have hc : content ≠ [] := by rintro rfl; simp at h
      have hlen : (content.drop CHUNK_SIZE).length ≤ L := by
        have h1 := List.length_pos.mpr hc
        have h2 := chunk_size_pos
        simp only [List.length_drop]
        omega
      simp only [h, dif_neg, not_false_iff]
      rw [ih _ hlen]
      rw [crcStep_some, zcrc32v_append, List.take_append_drop]

theorem sendChunks_payload (L : Nat) (content : List Nat)
    (hL : content.length ≤ L) (acc : Option Nat) (n : Nat) :
    ((sendChunks content acc n).1.map ChunkPacket.payload).flatten = content := by
  induction L generalizing content acc n with
  | zero =>
    have : content = [] := List.length_eq_zero.mp (Nat.le_zero.mp hL)
    subst this
    rw [sendChunks_nil]
    simp
  | succ L ih =>
    rw [sendChunks]
    by_cases h : content.take CHUNK_SIZE = []
    · have : content = [] := by
        rcases List.take_eq_nil_iff.mp h with h' | h'
        · exact absurd h' (Nat.pos_iff_ne_zero.mp chunk_size_pos)
        · exact h'
      subst this
      simp [h]
    · have hc : content ≠ [] := by rintro rfl; simp at h
      have hlen : (content.drop CHUNK_SIZE).length ≤ L := by
        have h1 := List.length_pos.mpr hc
        have h2 := chunk_size_pos
        simp only [List.length_drop]
        omega
      simp only [h, dif_neg, not_false_iff, List.map_cons, List.flatten_cons]
      rw [ih _ hlen]
      exact List.take_append_drop _ _

/-- The INIT packet built at line 456: `[INIT_PACKET, queue bytes, queue
depth, resend counter, device id, mtime ms, file length, storage kind,
filename, date format]`.  `fileSize` is the length recorded in the queue
entry at enqueue time (`fileobj[1]`). -/
structure InitPacket where
  queueBytes : Nat
  queueDepth : Nat
  resendCounter : Nat
  deviceId : Nat
  mtimeMs : Nat
  fileSize : Nat
  storage : Nat
  fname : String
  dateFormat : String
deriving DecidableEq

structure TransferOut where
  init : InitPacket
  chunks : List ChunkPacket
  crcOut : Nat
deriving DecidableEq

/-- One complete transfer of a popped queue entry (lines 410-501): an
entry whose recorded size is 0 is dropped without an INIT (lines
427-433); otherwise the INIT packet carries the enqueue-recorded size
`enqLen` while the chunk loop reads `content`, the file's bytes at read
time. -/
def transferFile (qb qd dev mt st : Nat) (fn df : String)
    (enqLen : Nat) (content : List Nat) : Option TransferOut :=
  if enqLen = 0 then none
  else
    let r := sendChunks content none 0
    some { init := { queueBytes := qb, queueDepth := qd, resendCounter := 0,
                     deviceId := dev, mtimeMs := mt, fileSize := enqLen,
                     storage := st, fname := fn, dateFormat := df },
           chunks := r.1, crcOut := r.2 }

def chunkBytesTotal (out : TransferOut) : Nat :=
  (out.chunks.map (fun ch => ch.payload.length)).sum

/-- C1 is false as stated: a file whose on-disk contents at read time are
`[7, 8]` but whose queue entry recorded size 1 (the file grew after
enqueue) completes its transfer sending 2 payload bytes while the INIT
packet declared `file_size = 1`: the chunk loop reads to end-of-file and
the extra byte is sent. -/
theorem C1_counterexample :
    (transferFile 0 0 0 0 0 "f" "d" 1 [7, 8]).map
        (fun out => (chunkBytesTotal out, out.init.fileSize)) = some (2, 1)
      ∧ (2 : Nat) ≠ 1 := by
  constructor
  · rw [show transferFile 0 0 0 0 0 "f" "d" 1 [7, 8]
        = some { init := { queueBytes := 0, queueDepth := 0,
                           resendCounter := 0, deviceId := 0, mtimeMs := 0,
                           fileSize := 1, storage := 0, fname := "f",
                           dateFormat := "d" },
                 chunks := [{ number := 0, payload := [7, 8] }],
                 crcOut := crcStep none [7, 8] } from by
      unfold transferFile
      rw [if_neg (by omega)]
      rw [sendChunks_short [7, 8] (by simp)
        (by simp; exact Nat.le_of_lt (by have := chunk_size_pos; unfold CHUNK_SIZE; omega)) none 0]]
    rfl
  · decide

/-- C1 (amended): for every completed transfer, the CHUNK payloads
concatenate to exactly the file's contents at read time, so the payload
byte total equals the content length — which equals the INIT-declared
`file_size` exactly when the file is unchanged since enqueue — and the
CRC packet always carries the zlib CRC-32 of exactly the payload bytes
sent. -/
theorem C1_amended (qb qd dev mt st : Nat) (fn df : String)
    (enqLen : Nat) (content : List Nat) (out : TransferOut)
    (h : transferFile qb qd dev mt st fn df enqLen content = some out) :
    ((out.chunks.map ChunkPacket.payload).flatten = content) ∧
    chunkBytesTotal out = content.length ∧
    out.init.fileSize = enqLen ∧
    out.crcOut = zcrc32 content ∧
    (enqLen = content.length → chunkBytesTotal out = out.init.fileSize) := by
  unfold transferFile at h
  by_cases h0 : enqLen = 0
  · simp [h0] at h
  · rw [if_neg h0] at h
    simp only [Option.some.injEq] at h
    subst h
    have hpay := sendChunks_payload content.length content le_rfl none 0
    have hsum : ((sendChunks content none 0).1.map
        (fun ch => ch.payload.length)).sum = content.length := by
      calc ((sendChunks content none 0).1.map
              (fun ch => ch.payload.length)).sum
          = (((sendChunks content none 0).1.map ChunkPacket.payload).map
              List.length).sum := by rw [List.map_map]; rfl
        _ = (((sendChunks content none 0).1.map
              ChunkPacket.payload).flatten).length := (List.length_flatten _).symm
        _ = content.length := by rw [hpay]
    refine ⟨hpay, hsum, rfl, ?_, fun he => by
      show ((sendChunks content none 0).1.map
        (fun ch => ch.payload.length)).sum = enqLen
      rw [hsum, he]⟩
    show (sendChunks content none 0).2 = zcrc32 content
    rw [sendChunks]
    by_cases hc : content.take CHUNK_SIZE = []
    · have : content = [] := by
        rcases List.take_eq_nil_iff.mp hc with h' | h'
        · exact absurd h' (Nat.pos_iff_ne_zero.mp chunk_size_pos)
        · exact h'
      subst this
      simp [hc, crcStep]
    · simp only [hc, dif_neg, not_false_iff]
      rw [sendChunks_crc (content.drop CHUNK_SIZE).length _ le_rfl]
      show zcrc32v (crcStep none (content.take CHUNK_SIZE)) _ = _
      rw [show crcStep none (content.take CHUNK_SIZE)
            = zcrc32v 0 (content.take CHUNK_SIZE) from rfl]
      rw [zcrc32v_append, List.take_append_drop]
      rfl

def c1wOut : TransferOut :=
  { init := { queueBytes := 0, queueDepth := 0, resendCounter := 0,
              deviceId := 0, mtimeMs := 0, fileSize := 3, storage := 0,
              fname := "a", dateFormat := "d" },
    chunks := [{ number := 0, payload := [1, 2, 3] }],
    crcOut := zcrc32 [1, 2, 3] }

theorem C1_witness :
    chunkBytesTotal c1wOut = c1wOut.init.fileSize ∧
    c1wOut.crcOut = zcrc32 [1, 2, 3] := by
  have h : transferFile 0 0 0 0 0 "a" "d" 3 [1, 2, 3] = some c1wOut := by
    unfold transferFile c1wOut
    rw [if_neg (by omega)]
    rw [sendChunks_short [1, 2, 3] (by simp)
      (by simp; unfold CHUNK_SIZE; omega) none 0]
    rfl
  obtain ⟨-, h2, h3, h4, -⟩ :=
    C1_amended 0 0 0 0 0 "a" "d" 3 [1, 2, 3] c1wOut h
  refine ⟨?_, h4⟩
  rw [h2, h3]
  rfl

/-! ## BinaryPlugin: RESEND handling (resume)

From `BinaryPluginClass.run`, lines 336-406.  The pending-file deque is
modelled as a list whose head is the deque's left end: `appendleft` is
`cons`, `append` is `++ [x]`, `remove` (first occurrence from the left)
is `List.erase`, and `pop` takes the last element. -/

/-- The per-iteration read size at lines 376-379: 4096 while more than
4096 bytes remain, else the remainder. -/
def readAmount (dp : Nat) : Nat := if dp > 4096 then 4096 else dp

theorem readAmount_le (dp : Nat) : readAmount dp <= dp := by
  unfold readAmount
  by_cases h : dp > 4096
  . rw [if_pos h]; omega
  . rw [if_neg h]

/-- Lines 373-389: incrementally CRC the first `downloaded` bytes of the
open file in reads of at most 4096 bytes; `pos` bytes are already
consumed and `acc` is the Python variable `crc` (`None` before the first
read).  On an empty read the loop breaks with the partial value. -/
def crcHeadLoop (content : List Nat) (downloaded pos : Nat)
    (acc : Option Nat) : Option Nat :=
  if pos = downloaded then acc
  else
    if hp : (content.drop pos).take (readAmount (downloaded - pos)) = [] then
      some (crcStep acc ((content.drop pos).take (readAmount (downloaded - pos))))
    else
      crcHeadLoop content downloaded
        (pos + ((content.drop pos).take (readAmount (downloaded - pos))).length)
        (some (crcStep acc ((content.drop pos).take (readAmount (downloaded - pos)))))
termination_by downloaded - pos
decreasing_by
  have h1 := List.length_pos.mpr hp
  have h2 := List.length_take_le (readAmount (downloaded - pos)) (content.drop pos)
  have h3 := readAmount_le (downloaded - pos)
  omega

theorem crcStep_chain (acc : Option Nat) (a b : List Nat) :
    crcStep acc (a ++ b) = crcStep (some (crcStep acc a)) b := by
  cases acc with
  | none =>
    rw [crcStep_some]
    show zcrc32v 0 _ = zcrc32v (zcrc32v 0 _) _
    rw [zcrc32v_append]
  | some c =>
    rw [crcStep_some, crcStep_some, crcStep_some, zcrc32v_append]

theorem crcHeadLoop_spec (content : List Nat) (downloaded : Nat)
    (hle : downloaded <= content.length) :
    ∀ (F pos : Nat), downloaded - pos <= F → pos < downloaded →
    ∀ (acc : Option Nat),
    crcHeadLoop content downloaded pos acc
      = some (crcStep acc ((content.drop pos).take (downloaded - pos))) := by
  intro F
  induction F with
  | zero => intro pos hF hlt acc; omega
  | succ F ih =>
    intro pos hF hlt acc
    by_cases hbig : downloaded - pos > 4096
    . have hra : readAmount (downloaded - pos) = 4096 := by
        unfold readAmount; rw [if_pos hbig]
      have hplen : ((content.drop pos).take (readAmount (downloaded - pos))).length
          = 4096 := by
        rw [hra, List.length_take]
        simp only [List.length_drop]
        omega
      have hnonnil : ((content.drop pos).take (readAmount (downloaded - pos))) ≠ [] := by
        intro hnil
        rw [hnil, List.length_nil] at hplen
        exact absurd hplen (by omega)
      rw [crcHeadLoop]
      rw [if_neg (by omega)]
      rw [dif_neg hnonnil]
      rw [hplen]
      rw [ih (pos + 4096) (by omega) (by omega)
        (some (crcStep acc ((content.drop pos).take (readAmount (downloaded - pos)))))]
      have hdd : (content.drop pos).drop 4096 = content.drop (pos + 4096) := by
        rw [List.drop_drop]
      have heq : downloaded - pos = 4096 + (downloaded - (pos + 4096)) := by omega
      have hsplit : (content.drop pos).take (downloaded - pos)
          = (content.drop pos).take 4096
            ++ (content.drop (pos + 4096)).take (downloaded - (pos + 4096)) := by
        rw [heq, List.take_add, hdd]
      rw [hsplit, hra, crcStep_chain]
    . have hra : readAmount (downloaded - pos) = downloaded - pos := by
        unfold readAmount; rw [if_neg hbig]
      have hplen : ((content.drop pos).take (readAmount (downloaded - pos))).length
          = downloaded - pos := by
        rw [hra, List.length_take]
        simp only [List.length_drop]
        omega
      have hnonnil : ((content.drop pos).take (readAmount (downloaded - pos))) ≠ [] := by
        intro hnil
        rw [hnil, List.length_nil] at hplen
        exact absurd hplen.symm (by omega)
      rw [crcHeadLoop]
      rw [if_neg (by omega)]
      rw [dif_neg hnonnil]
      rw [hplen]
      rw [crcHeadLoop]
      rw [if_pos (by omega)]
      rw [hra]

structure ResendOut where
  queue : List (String × Nat)
  mode : Nat
  fdOpenAt : Option Nat
  chunkNumber : Nat
  crcLocal : Option Nat
deriving DecidableEq

/-- RESEND with `downloaded > 0` (lines 360-397): remove a matching
queue entry (`[filename, getsize(filename)]`) if present, reopen the
file and chmod it 0444, CRC its first `downloaded` bytes, then either
leave the descriptor open at that offset with the packet's chunk number
(CRC match) or chmod 0744, re-enqueue `[filename, getsize]` at the right
end and close (mismatch).  `content` is the file's bytes on disk. -/
def handleResend (queue : List (String × Nat)) (filename : String)
    (content : List Nat) (downloaded chunkNr gsnCRC : Nat) : ResendOut :=
  let q1 := queue.erase (filename, content.length)
  let crc := crcHeadLoop content downloaded 0 none
  if crc ≠ some gsnCRC then
    { queue := q1 ++ [(filename, content.length)], mode := 0o744,
      fdOpenAt := none, chunkNumber := chunkNr, crcLocal := crc }
  else
    { queue := q1, mode := 0o444, fdOpenAt := some downloaded,
      chunkNumber := chunkNr, crcLocal := crc }

theorem filter_length_eq_count (filename : String) (e : String × Nat)
    (he : e.1 = filename) (l : List (String × Nat))
    (h : ∀ p ∈ l, p.1 = filename → p = e) :
    (l.filter (fun p => p.1 = filename)).length = l.count e := by
  induction l with
  | nil => simp
  | cons x t ih =>
    have ht : ∀ p ∈ t, p.1 = filename → p = e :=
      fun p hp => h p (List.mem_cons_of_mem _ hp)
    by_cases hx : x.1 = filename
    · rw [h x (List.mem_cons_self _ _) hx]
      rw [List.filter_cons_of_pos (by simp [he])]
      rw [List.count_cons_self]
      simp only [List.length_cons]
      rw [ih ht]
    · have hxe : e ≠ x := fun hh => hx (hh ▸ he)
      rw [List.filter_cons_of_neg (by simp [hx])]
      rw [List.count_cons_of_ne hxe]
      exact ih ht

/-- C7 is false in its no-duplicate conclusion: a queue entry recorded
at a stale size (here `("x", 1)` for a file that has since grown to 3
bytes) does not match `deque.remove([filename, getsize(filename)])`
(line 363), so it survives; the mismatch path's `append` (line 394)
then leaves two queue entries for the file. -/
theorem C7_counterexample :
    ((handleResend [("x", 1)] "x" [1, 2, 3] 2 5 99).queue.filter
        (fun p => p.1 = "x")).length = 2 ∧ (2 : Nat) ≠ 1 := by
  have hcrc : crcHeadLoop [1, 2, 3] 2 0 none
      = some (crcStep none (([1, 2, 3].drop 0).take (2 - 0))) :=
    crcHeadLoop_spec [1, 2, 3] 2 (by decide) 2 0 (by decide) (by decide) none
  simp only [handleResend]
  rw [hcrc]
  decide

/-- C7 (amended): on RESEND with `downloaded > 0` (and the file at
least that long), the agent computes the zlib CRC-32 of exactly the
first `downloaded` bytes; on a match it holds the file open (mode 0444)
at offset `downloaded` with the supplied chunk number; on a mismatch it
restores mode 0744, closes and re-enqueues the file — and the queue
then holds exactly one entry for it provided every queue entry for the
file recorded its current size and there was at most one (the remove at
line 363 matches `[filename, getsize(filename)]` exactly, so a
stale-size entry survives and leaves a duplicate). -/
theorem C7_resume (queue : List (String × Nat)) (filename : String)
    (content : List Nat) (downloaded chunkNr gsnCRC : Nat)
    (h1 : 0 < downloaded) (h2 : downloaded ≤ content.length)
    (h3 : ∀ p ∈ queue, p.1 = filename → p = (filename, content.length))
    (h4 : (queue.filter (fun p => p.1 = filename)).length ≤ 1) :
    (handleResend queue filename content downloaded chunkNr gsnCRC).crcLocal
        = some (zcrc32 (content.take downloaded)) ∧
    (zcrc32 (content.take downloaded) = gsnCRC →
      (handleResend queue filename content downloaded chunkNr gsnCRC).fdOpenAt
          = some downloaded ∧
      (handleResend queue filename content downloaded chunkNr gsnCRC).chunkNumber
          = chunkNr ∧
      (handleResend queue filename content downloaded chunkNr gsnCRC).mode = 0o444) ∧
    (zcrc32 (content.take downloaded) ≠ gsnCRC →
      (handleResend queue filename content downloaded chunkNr gsnCRC).mode = 0o744 ∧
      (handleResend queue filename content downloaded chunkNr gsnCRC).fdOpenAt = none ∧
      ((handleResend queue filename content downloaded chunkNr gsnCRC).queue.filter
          (fun p => p.1 = filename)).length = 1) := by
  have hcrc : crcHeadLoop content downloaded 0 none
      = some (zcrc32 (content.take downloaded)) := by
    rw [crcHeadLoop_spec content downloaded h2 downloaded 0 (by omega) h1 none]
    simp [crcStep]
  have hcount : (queue.erase (filename, content.length)).count
      (filename, content.length) = 0 := by
    have hh := filter_length_eq_count filename (filename, content.length) rfl queue h3
    rw [hh] at h4
    rw [List.count_erase_self]
    omega
  have hfilter0 : ((queue.erase (filename, content.length)).filter
      (fun p => p.1 = filename)).length = 0 := by
    rw [filter_length_eq_count filename (filename, content.length) rfl _
      (fun p hp => h3 p (List.Sublist.mem hp (List.erase_sublist _ _)))]
    exact hcount
  unfold handleResend
  by_cases hm : zcrc32 (content.take downloaded) = gsnCRC
  · rw [hcrc]
    rw [if_neg (by simp [hm])]
    exact ⟨rfl, fun _ => ⟨rfl, rfl, rfl⟩, fun hne => absurd hm hne⟩
  · rw [hcrc]
    rw [if_pos (by simp [hm])]
    refine ⟨rfl, fun he => absurd he hm, fun _ => ⟨rfl, rfl, ?_⟩⟩
    show ((queue.erase (filename, content.length)
        ++ [(filename, content.length)]).filter (fun p => p.1 = filename)).length = 1
    rw [List.filter_append]
    simp only [List.length_append, hfilter0]
    simp

theorem C7_witness :
    (handleResend [("x", 3)] "x" [1, 2, 3] 2 5 99).mode = 0o744 ∧
    (handleResend [("x", 3)] "x" [1, 2, 3] 2 5 99).fdOpenAt = none ∧
    ((handleResend [("x", 3)] "x" [1, 2, 3] 2 5 99).queue.filter
        (fun p => p.1 = "x")).length = 1 := by
  obtain ⟨hc, hmat, hmis⟩ := C7_resume [("x", 3)] "x" [1, 2, 3] 2 5 99
    (by decide) (by decide) (by decide) (by decide)
  exact hmis (by decide)

/-! ## BinaryPlugin: picking the next file from the queue

Lines 410-433 of the work loop, iterated until a file is opened for
sending.  The queue is given in pop order (`deque.pop()` takes the right
end, so this list is the reverse of the deque's left-to-right contents).
`fs` maps a path to its on-disk contents (`none` when the file does not
exist). -/

/-- Returns the remaining queue (pop order), the paths deleted from disk
(size-0 entries, lines 427-433), and the entry selected for the INIT
packet, if any.  Entries whose file no longer exists are skipped (lines
420-422); deleting a size-0 file removes it from `fs`. -/
def pickNextFile (q : List (String × Nat)) (fs : String → Option (List Nat)) :
    List (String × Nat) × List String × Option (String × Nat) :=
  match q with
  | [] => ([], [], none)
  | e :: rest =>
    match fs e.1 with
    | none => pickNextFile rest fs
    | some _ =>
      if e.2 = 0 then
        ((pickNextFile rest (fun n => if n = e.1 then none else fs n)).1,
         e.1 :: (pickNextFile rest (fun n => if n = e.1 then none else fs n)).2.1,
         (pickNextFile rest (fun n => if n = e.1 then none else fs n)).2.2)
      else (rest, [], some e)

theorem pickNext_absent (q : List (String × Nat)) :
    ∀ (fs : String → Option (List Nat)) (name : String), fs name = none →
    ∀ c, (pickNextFile q fs).2.2 = some c → c.1 ≠ name := by
  induction q with
  | nil =>
    intro fs name _ c hc
    simp [pickNextFile] at hc
  | cons e rest ih =>
    intro fs name hn c hc
    by_cases hfe : fs e.1 = none
    · rw [show pickNextFile (e :: rest) fs = pickNextFile rest fs from by
        simp [pickNextFile, hfe]] at hc
      exact ih fs name hn c hc
    · obtain ⟨ct, hct⟩ := Option.ne_none_iff_exists'.mp hfe
      by_cases hz : e.2 = 0
      · rw [show pickNextFile (e :: rest) fs
            = ((pickNextFile rest (fun n => if n = e.1 then none else fs n)).1,
               e.1 :: (pickNextFile rest (fun n => if n = e.1 then none else fs n)).2.1,
               (pickNextFile rest (fun n => if n = e.1 then none else fs n)).2.2)
            from by simp [pickNextFile, hct, hz]] at hc
        exact ih (fun n => if n = e.1 then none else fs n) name
          (by by_cases h : name = e.1 <;> simp [h, hn]) c hc
      · rw [show pickNextFile (e :: rest) fs = (rest, [], some e) from by
          simp [pickNextFile, hct, hz]] at hc
        simp only [Option.some.injEq] at hc
        subst hc
        intro hcn
        rw [hcn] at hct
        rw [hn] at hct
        exact Option.noConfusion hct

/-- C9: when the next popped queue entry records size 0 and its file
exists on disk, the file is deleted, selection continues with the rest
of the queue (with the path gone from disk), and no INIT is ever
selected for that path in the continuation. -/
theorem C9_emptyFile (e : String × Nat) (rest : List (String × Nat))
    (fs : String → Option (List Nat)) (ct : List Nat)
    (hfe : fs e.1 = some ct) (hz : e.2 = 0) :
    pickNextFile (e :: rest) fs
      = ((pickNextFile rest (fun n => if n = e.1 then none else fs n)).1,
         e.1 :: (pickNextFile rest (fun n => if n = e.1 then none else fs n)).2.1,
         (pickNextFile rest (fun n => if n = e.1 then none else fs n)).2.2) ∧
    e.1 ∈ (pickNextFile (e :: rest) fs).2.1 ∧
    (∀ c, (pickNextFile (e :: rest) fs).2.2 = some c → c.1 ≠ e.1) := by
  have heq : pickNextFile (e :: rest) fs
      = ((pickNextFile rest (fun n => if n = e.1 then none else fs n)).1,
         e.1 :: (pickNextFile rest (fun n => if n = e.1 then none else fs n)).2.1,
         (pickNextFile rest (fun n => if n = e.1 then none else fs n)).2.2) := by
    simp [pickNextFile, hfe, hz]
  refine ⟨heq, ?_, ?_⟩
  · rw [heq]
    exact List.mem_cons_self _ _
  · intro c hc
    rw [heq] at hc
    simp only at hc
    exact pickNext_absent rest _ e.1 (by simp) c hc

def fsW : String → Option (List Nat) :=
  fun n => if n = "a" then some [] else if n = "b" then some [9] else none

theorem C9_witness :
    (pickNextFile [("a", 0), ("b", 2)] fsW).2.1 = ["a"] ∧
    (pickNextFile [("a", 0), ("b", 2)] fsW).2.2 = some ("b", 2) ∧
    ("b", 2).1 ≠ ("a", (0 : Nat)).1 := by
  obtain ⟨h1, h2, h3⟩ :=
    C9_emptyFile ("a", 0) [("b", 2)] fsW [] (by decide) (by decide)
  refine ⟨?_, ?_, ?_⟩
  · rw [h1]
    decide
  · rw [h1]
    decide
  · exact h3 ("b", 2) (by rw [h1]; decide)

/-! ## BinaryPlugin: deque ordering

Startup scan (lines 184-199): collect `(mtime, path)` pairs, sort
ascending, and `appendleft` each `(path, size)` entry.  Watch events
(line 596, `BinaryChangedProcessing.process_default`) also use
`appendleft`; the work loop pops with `pop()` from the opposite end.
The deque is a list whose head is the left end; `filetime.sort()` sorts
tuples by `(mtime, path)` — ties on mtime are further ordered by path in
Python, while the model orders by mtime alone (identical whenever mtimes
are distinct). -/

def pyAppendleft (q : List (String × Nat)) (x : String × Nat) :
    List (String × Nat) := x :: q

def popOrder (q : List (String × Nat)) : List (String × Nat) := q.reverse

def mtimeLE (a b : (Nat × String) × Nat) : Prop := a.1.1 ≤ b.1.1

instance : DecidableRel mtimeLE := fun a b => Nat.decLe a.1.1 b.1.1

instance : IsTotal ((Nat × String) × Nat) mtimeLE :=
  ⟨fun a b => Nat.le_total a.1.1 b.1.1⟩

instance : IsTrans ((Nat × String) × Nat) mtimeLE :=
  ⟨fun _ _ _ => Nat.le_trans⟩

/-- The startup scan result: files as `((mtime, path), size)`, sorted
ascending by mtime, each pushed with `appendleft` as `(path, size)`. -/
def startupDeque (files : List ((Nat × String) × Nat)) : List (String × Nat) :=
  ((List.insertionSort mtimeLE files).map (fun f => (f.1.2, f.2))).foldl
    pyAppendleft []

theorem foldl_pyAppendleft (l : List (String × Nat)) :
    ∀ (init : List (String × Nat)), l.foldl pyAppendleft init = l.reverse ++ init := by
  induction l with
  | nil => intro init; simp
  | cons x t ih =>
    intro init
    simp only [List.foldl_cons, ih, List.reverse_cons, List.append_assoc]
    rfl

/-- C6 is false in its second half: with a startup backlog of two files
(mtimes 1 and 2) and a subsequent watch event for path "C", the next pop
returns the oldest startup file, not the event file — watch events are
pushed to the same end as the startup scan and are transmitted after the
whole backlog. -/
theorem C6_counterexample :
    (popOrder (pyAppendleft (startupDeque [((1, "A"), 5), ((2, "B"), 6)])
        ("C", 7))).head? = some ("A", 5) ∧
    (("A", 5) : String × Nat) ≠ ("C", 7) := by
  constructor
  · rfl
  · decide

/-- C6 (amended): startup files are enqueued sorted by mtime ascending
and popped oldest first; a watch event pushes to the same (left) end as
the startup scan, so event files are transmitted after the entire
existing backlog, in arrival order — they do not preempt it. -/
theorem C6_amended (files : List ((Nat × String) × Nat))
    (events : List (String × Nat)) :
    popOrder (events.foldl pyAppendleft (startupDeque files))
      = ((List.insertionSort mtimeLE files).map (fun f => (f.1.2, f.2)))
        ++ events ∧
    List.Sorted mtimeLE (List.insertionSort mtimeLE files) ∧
    List.Perm (List.insertionSort mtimeLE files) files := by
  refine ⟨?_, List.sorted_insertionSort mtimeLE files,
    List.perm_insertionSort mtimeLE files⟩
  unfold popOrder startupDeque
  rw [foldl_pyAppendleft, foldl_pyAppendleft]
  simp

/-! ## BinaryPlugin: file-permission discipline

The plugin holds at most one file open for transfer; while held the file
is chmod'ed 0444, and the exit paths are supposed to restore 0744 before
closing.  The state tracks the Python attribute `_filedescriptor`
(`fdSet`: not `None`; `fdOpen`: not closed), the held file's name, its
on-disk mode, whether it still exists, its current size, and the deque
(left-to-right). -/

structure BTState where
  fdSet : Bool
  fdOpen : Bool
  fdName : String
  fileMode : Nat
  present : Bool
  size : Nat
  queue : List (String × Nat)
deriving DecidableEq

/-- Opening a popped file for transfer: `open(filename, 'rb')` then
`chmod 0444` (lines 418-419; same pattern at lines 369-370). -/
def openForTransfer (s : BTState) : BTState :=
  { s with fdSet := true, fdOpen := true, fileMode := 0o444 }

/-- Successful completion, CRC packet built: `chmod 0744` then close
(lines 482-484). -/
def crcDoneClose (s : BTState) : BTState :=
  { s with fileMode := 0o744, fdOpen := false }

/-- Popped entry with recorded size 0: `chmod 0744`, close, remove
(lines 430-432). -/
def emptyFileDrop (s : BTState) : BTState :=
  { s with fileMode := 0o744, fdOpen := false, present := false }

/-- No watch matches the file: `chmod 0744` then close (lines 449-452). -/
def noWatchClose (s : BTState) : BTState :=
  { s with fileMode := 0o744, fdOpen := false }

/-- INIT request from GSN while a file is still open: `chmod 0744`,
close, remove (lines 325-330). -/
def initPreemptClose (s : BTState) : BTState :=
  if s.fdSet && s.fdOpen then
    { s with fileMode := 0o744, fdOpen := false, present := false }
  else s

/-- RESEND CRC mismatch: `chmod 0744`, re-enqueue at the right end,
close (lines 393-395). -/
def resendMismatchClose (s : BTState) : BTState :=
  { s with fileMode := 0o744, queue := s.queue ++ [(s.fdName, s.size)],
           fdOpen := false }

/-- The work loop's exception handler: `chmod 0744` then close
(lines 522-526). -/
def runErrorClose (s : BTState) : BTState :=
  { s with fileMode := 0o744, fdOpen := false }

/-- `stop()` (lines 564-576): clear the deque; if a descriptor is open,
`chmod 0744` and close. -/
def stopClose (s : BTState) : BTState :=
  if s.fdSet && s.fdOpen then
    { s with queue := [], fileMode := 0o744, fdOpen := false }
  else
    { s with queue := [] }

/-- `connectionToGSNestablished` (lines 224-233): if `_filedescriptor`
is set, re-enqueue the file (when it still exists) at the right end and
close the descriptor.  The file mode is not touched. -/
def connEstablished (s : BTState) : BTState :=
  if s.fdSet then
    { s with
      queue := if s.present then s.queue ++ [(s.fdName, s.size)] else s.queue,
      fdOpen := false }
  else s

def c2base : BTState :=
  { fdSet := false, fdOpen := false, fdName := "f", fileMode := 0o744,
    present := true, size := 5, queue := [] }

/-- C2 is false as stated: re-establishing the GSN connection while a
transfer is active closes the descriptor without restoring the mode, so
the file stays 0444 on disk; a subsequent `stop()` (descriptor already
closed) leaves it 0444 after the run terminates. -/
theorem C2_counterexample :
    (connEstablished (openForTransfer c2base)).fdOpen = false ∧
    (connEstablished (openForTransfer c2base)).fileMode = 0o444 ∧
    (stopClose (connEstablished (openForTransfer c2base))).fileMode = 0o444 ∧
    (0o444 : Nat) ≠ 0o744 := by
  decide

inductive RestoringExit where
  | success
  | emptyFile
  | noWatch
  | initPreempt
  | resendMismatch
  | runError
  | stopPath

def applyExit : RestoringExit → BTState → BTState
  | RestoringExit.success, s => crcDoneClose s
  | RestoringExit.emptyFile, s => emptyFileDrop s
  | RestoringExit.noWatch, s => noWatchClose s
  | RestoringExit.initPreempt, s => initPreemptClose s
  | RestoringExit.resendMismatch, s => resendMismatchClose s
  | RestoringExit.runError, s => runErrorClose s
  | RestoringExit.stopPath, s => stopClose s

/-- C2 (amended): every exit path of the work loop that closes the held
descriptor — success, empty-file drop, missing watch, INIT preemption,
resume rejection, the exception handler, and `stop()` — restores mode
0744 before closing; the one exception is connection re-establishment,
which closes without restoring, so a file can be left at mode 0444 on
disk after the run ends. -/
theorem C2_amended (p : RestoringExit) (s : BTState)
    (h1 : s.fdSet = true) (h2 : s.fdOpen = true) :
    (applyExit p s).fileMode = 0o744 ∧ (applyExit p s).fdOpen = false := by
  cases p <;>
    simp [applyExit, crcDoneClose, emptyFileDrop, noWatchClose,
      initPreemptClose, resendMismatchClose, runErrorClose, stopClose, h1, h2]

theorem C2_witness :
    (applyExit RestoringExit.stopPath (openForTransfer c2base)).fileMode = 0o744 ∧
    (applyExit RestoringExit.stopPath (openForTransfer c2base)).fdOpen = false :=
  C2_amended RestoringExit.stopPath (openForTransfer c2base) rfl rfl

/-! ## ScheduleHandler: schedule text, parsing, merge and persistence

From `ScheduleHandlerClass._setSchedule` (lines 615-658) and
`_mergeSchedule` (lines 661-689).  The crontab parsing library
(`crontab.CronTab`) is not part of this repository; a schedule text is
modelled as a list of rows, each row carrying its five time fields as
opaque text plus the command portion split into whitespace words
(`render()` returns the row and re-parsing a rendered row yields the
same row).  The optional `name=INTEGER` special parameters of
`_getSpecialParameter` are not modelled; none of the inputs considered
here contain them. -/

inductive SKind where
  | plugin
  | script
deriving DecidableEq

structure CronRow where
  time : String
  cmd : List String
deriving DecidableEq

structure SEntry where
  kind : SKind
  key : String
  row : CronRow
deriving DecidableEq

/-- Python `str.lower` (modelled for the ASCII keywords compared here). -/
def lowerChar (c : Char) : Char :=
  if 65 ≤ c.toNat ∧ c.toNat ≤ 90 then Char.ofNat (c.toNat + 32) else c

def lowerStr (s : String) : String := String.mk (s.data.map lowerChar)

/-- `_scheduleSanityCheck` (lines 1106-1132), command part: the first
word selects PLUGIN (case-insensitive; the second word is the plugin
class name) or SCRIPT (the rest is the command string); a missing
second word or an unknown keyword raises. -/
def parseRow (r : CronRow) : Except String SEntry :=
  match r.cmd with
  | [] => Except.error "PLUGIN or SCRIPT definition is missing"
  | t :: rest =>
    if rest = [] then Except.error "PLUGIN or SCRIPT definition is missing"
    else if lowerStr t = "plugin" then
      Except.ok { kind := SKind.plugin, key := rest.headI, row := r }
    else if lowerStr t = "script" then
      Except.ok { kind := SKind.script, key := String.intercalate " " rest,
                  row := r }
    else Except.error "PLUGIN or SCRIPT definition is missing"

instance {e a : Type} [DecidableEq e] [DecidableEq a] :
    DecidableEq (Except e a) :=
  fun x y =>
    match x, y with
    | Except.error u, Except.error v =>
      if h : u = v then isTrue (by rw [h])
      else isFalse (fun hh => h (Except.error.inj hh))
    | Except.error _, Except.ok _ => isFalse (fun hh => Except.noConfusion hh)
    | Except.ok _, Except.error _ => isFalse (fun hh => Except.noConfusion hh)
    | Except.ok u, Except.ok v =>
      if h : u = v then isTrue (by rw [h])
      else isFalse (fun hh => h (Except.ok.inj hh))

/-- `ScheduleCron.__init__`: parse every row, failing on the first bad
one. -/
def parseText (rows : List CronRow) : Except String (List SEntry) :=
  rows.mapM parseRow

/-- The merged-text construction of `_mergeSchedule` lines 670-687:
existing SCRIPT rows are replaced by all matching incoming SCRIPT rows
(matching on the command string), existing PLUGIN rows of the origin
plugin are dropped, and all incoming PLUGIN rows are appended. -/
def buildMerged (plugin : String) (sc : List SEntry)
    (existing : List SEntry) : List CronRow :=
  (existing.foldl (fun acc oldsc =>
    match oldsc.kind with
    | SKind.script =>
      if (sc.filter (fun n => decide (n.kind = SKind.script ∧ n.key = oldsc.key))) = [] then
        acc ++ [oldsc.row]
      else
        acc ++ (sc.filter
          (fun n => decide (n.kind = SKind.script ∧ n.key = oldsc.key))).map SEntry.row
    | SKind.plugin =>
      if oldsc.key ≠ plugin then acc ++ [oldsc.row] else acc) [])
  ++ (sc.filter (fun n => decide (n.kind = SKind.plugin))).map SEntry.row

/-- `_mergeSchedule` (lines 661-689): parse the incoming text, reject
the whole merge when it contains a PLUGIN entry for another plugin
(line 667-668), else return the merged text. -/
def mergeScheduleRows (plugin : String) (newRows : List CronRow)
    (existing : List SEntry) : Except String (List CronRow) :=
  match parseText newRows with
  | Except.error e => Except.error e
  | Except.ok sc =>
    if sc.any (fun e => decide (e.kind = SKind.plugin ∧ e.key ≠ plugin)) then
      Except.error "not allowed to change the schedule"
    else
      Except.ok (buildMerged plugin sc existing)

structure SchedState where
  memory : Option (List SEntry)
  rawFile : List CronRow
  sidecar : Option (List SEntry)
  errorReported : Bool
deriving DecidableEq

/-- `_setSchedule` (lines 615-658): on merge with an existing schedule,
parse the merged text, else parse the incoming text; on success install
in memory, write the **incoming** text (`schedule`, line 632) to the raw
schedule file and pickle the installed schedule to the sidecar; on any
failure keep the old schedule, report an error and return failure. -/
def setSchedule (origin : String) (text : List CronRow) (merge : Bool)
    (st : SchedState) : SchedState × Bool :=
  match (match merge, st.memory with
    | true, some oldE =>
      match mergeScheduleRows origin text oldE with
      | Except.error e => Except.error e
      | Except.ok mergedRows => parseText mergedRows
    | _, _ => parseText text) with
  | Except.ok sc =>
    ({ memory := some sc, rawFile := text, sidecar := some sc,
       errorReported := st.errorReported }, true)
  | Except.error _ => ({ st with errorReported := true }, false)

def rowS : CronRow := { time := "* * * * *", cmd := ["SCRIPT", "/bin/true"] }

def rowPB : CronRow := { time := "0 12 * * *", cmd := ["PLUGIN", "B", "x"] }

def rowPB2 : CronRow := { time := "0 13 * * *", cmd := ["PLUGIN", "B", "y"] }

def rowPA : CronRow := { time := "* * * * *", cmd := ["PLUGIN", "A", "foo"] }

def entS : SEntry := { kind := SKind.script, key := "/bin/true", row := rowS }

def entPB : SEntry := { kind := SKind.plugin, key := "B", row := rowPB }

def c3st : SchedState :=
  { memory := some [entS, entPB], rawFile := [rowS, rowPB],
    sidecar := some [entS, entPB], errorReported := false }

/-- C3 evaluated at the failing input: with `[SCRIPT /bin/true, PLUGIN B x]`
installed, a successful `setSchedule(origin = "B", text = [PLUGIN B y],
merge = true)` installs the merged schedule `[SCRIPT /bin/true,
PLUGIN B y]` in memory (and the sidecar) but writes only the incoming
text to the raw file, so re-parsing the persisted raw text does not
yield the in-memory schedule. -/
theorem C3_bug_eval :
    (setSchedule "B" [rowPB2] true c3st).2 = true ∧
    (setSchedule "B" [rowPB2] true c3st).1.memory
      = some [entS, { kind := SKind.plugin, key := "B", row := rowPB2 }] ∧
    (setSchedule "B" [rowPB2] true c3st).1.rawFile = [rowPB2] ∧
    parseText (setSchedule "B" [rowPB2] true c3st).1.rawFile
      ≠ Except.ok [entS, { kind := SKind.plugin, key := "B", row := rowPB2 }] := by
  decide

def c8st : SchedState :=
  { memory := none, rawFile := [], sidecar := none, errorReported := false }

def entPA : SEntry := { kind := SKind.plugin, key := "A", row := rowPA }

/-- C8 is false as stated: when no schedule is installed yet,
`merge = true` degenerates to a plain replace (`if merge and
self._schedule`, line 622) and a text whose PLUGIN entry names another
plugin is accepted: the call succeeds and installs it. -/
theorem C8_counterexample :
    parseText [rowPA] = Except.ok [entPA] ∧
    entPA.kind = SKind.plugin ∧
    entPA.key ≠ "B" ∧
    (setSchedule "B" [rowPA] true c8st).2 = true ∧
    (setSchedule "B" [rowPA] true c8st).1.memory = some [entPA] := by
  decide

/-- C8 (amended): when a schedule is already installed, a
`merge = true` call whose incoming text parses to a list containing a
PLUGIN entry for a plugin other than `origin` is rejected as a whole:
`setSchedule` returns failure, the previous state (in particular the
in-memory schedule) is retained, and an error is reported.  Without an
installed schedule the merge degenerates to a replace and is not
checked. -/
theorem C8_amended (origin : String) (text : List CronRow) (st : SchedState)
    (oldE : List SEntry) (es : List SEntry)
    (hmem : st.memory = some oldE)
    (hparse : parseText text = Except.ok es)
    (hforeign : ∃ e ∈ es, e.kind = SKind.plugin ∧ e.key ≠ origin) :
    setSchedule origin text true st = ({ st with errorReported := true }, false) := by
  have hany : es.any (fun e => decide (e.kind = SKind.plugin ∧ e.key ≠ origin))
      = true := by
    rw [List.any_eq_true]
    obtain ⟨e, he, h1, h2⟩ := hforeign
    exact ⟨e, he, by simp [h1, h2]⟩
  have hmerge : mergeScheduleRows origin text oldE
      = Except.error "not allowed to change the schedule" := by
    unfold mergeScheduleRows
    rw [hparse]
    simp only [hany, if_true]
  unfold setSchedule
  rw [hmem]
  simp only [hmerge]

theorem C8_witness :
    setSchedule "B" [rowPA] true c3st
      = ({ c3st with errorReported := true }, false) :=
  C8_amended "B" [rowPA] c3st [entS, entPB] [entPA] (by decide) (by decide)
    ⟨entPA, by decide, by decide, by decide⟩

/-! ## ScheduleCron: date-time model and the next-schedule search

From `ScheduleCron._getNextSchedule` (lines 1037-1092), `_getRange`
(1157-1164), `_getFirst` (1146-1154), `_scheduleSanityCheckHelper`
(1135-1142) and `getNextSchedules` (950-999).  Python `datetime` (not
part of this repository) is modelled from its spec: proleptic Gregorian
calendar, years 1-9999 (constructing a later date raises `ValueError`),
comparison lexicographic on the fields, `isoweekday` with Monday = 1 and
0001-01-01 a Monday. -/

def isLeap (y : Nat) : Bool := decide ((y % 4 = 0 ∧ y % 100 ≠ 0) ∨ y % 400 = 0)

def daysInMonth (y m : Nat) : Nat :=
  if m = 2 then (if isLeap y then 29 else 28)
  else if m = 4 ∨ m = 6 ∨ m = 9 ∨ m = 11 then 30
  else 31

structure DT where
  year : Nat
  month : Nat
  day : Nat
  hour : Nat
  minute : Nat
  sec : Nat
deriving DecidableEq

/-- Radix encoding of a datetime; for field values within their calendar
ranges it coincides with Python datetime's lexicographic comparison. -/
def DT.key (d : DT) : Nat :=
  ((((d.year * 13 + d.month) * 32 + d.day) * 24 + d.hour) * 60 + d.minute) * 60
    + d.sec

abbrev dtLT (a b : DT) : Prop := a.key < b.key

abbrev dtLE (a b : DT) : Prop := a.key ≤ b.key

def mkDT (y mo d h mi : Nat) : DT := ⟨y, mo, d, h, mi, 0⟩

/-- `datetime(y, mo, d)` succeeds exactly on these fields. -/
def validDateB (y mo d : Nat) : Bool :=
  decide (1 ≤ y ∧ y ≤ 9999 ∧ 1 ≤ mo ∧ mo ≤ 12 ∧ 1 ≤ d ∧ d ≤ daysInMonth y mo)

/-- In-range fields of a reference datetime (any value Python's
`datetime` can hold). -/
def DTWF (d : DT) : Prop :=
  1 ≤ d.month ∧ d.month ≤ 12 ∧ 1 ≤ d.day ∧ d.day ≤ daysInMonth d.year d.month
    ∧ d.hour ≤ 23 ∧ d.minute ≤ 59 ∧ d.sec ≤ 59

instance (d : DT) : Decidable (DTWF d) := by
  unfold DTWF
  infer_instance

def daysBeforeMonth (y mo : Nat) : Nat :=
  (if 3 ≤ mo ∧ isLeap y then 1 else 0) +
    match mo with
    | 1 => 0 | 2 => 31 | 3 => 59 | 4 => 90 | 5 => 120 | 6 => 151
    | 7 => 181 | 8 => 212 | 9 => 243 | 10 => 273 | 11 => 304 | _ => 334

def toOrdinal (y mo d : Nat) : Nat :=
  (y - 1) * 365 + (y - 1) / 4 - (y - 1) / 100 + (y - 1) / 400
    + daysBeforeMonth y mo + d

def isoweekday (y mo d : Nat) : Nat := (toOrdinal y mo d - 1) % 7 + 1

/-- A sub-expression of a cron time field as exposed by the crontab
library: a plain value, or a range/step/wildcard with its endpoints and
step (`value_from`, `value_to`, `seq`; a wildcard is the full range with
step 1).  The library is not part of this repository. -/
inductive CronPart where
  | atom (v : Nat)
  | rng (vfrom vto seq : Nat)
deriving DecidableEq

/-- `_getRange` (lines 1157-1164): an atom contributes itself, a
range-like part contributes `range(value_from, value_to + 1, seq)`.
(Python raises on `seq = 0`; the model is used with `seq ≥ 1`.) -/
def partElems : CronPart → List Nat
  | CronPart.atom v => [v]
  | CronPart.rng a b s => if a > b then [] else List.range' a ((b - a) / s + 1) s

def getRange (parts : List CronPart) : List Nat := (parts.map partElems).flatten

/-- `_getFirst` (lines 1146-1154), with its quirks kept: a range part
overwrites the current minimum by its `value_from`; an atom replaces it
when none is set, when the current value is 0 (`not smallestPart` is
true for 0 in Python), or when smaller. -/
def getFirst (parts : List CronPart) : Option Nat :=
  parts.foldl (fun sp part =>
    match part with
    | CronPart.rng a _ _ => some a
    | CronPart.atom v =>
      match sp with
      | none => some v
      | some 0 => some v
      | some w => if v < w then some v else some w) none

/-- `_getFirst` never returns `None` for a non-empty field; the caller
feeds the result to `datetime` directly. -/
def getFirstD (parts : List CronPart) : Nat := (getFirst parts).getD 0

/-- `_scheduleSanityCheckHelper` (lines 1135-1142) for one part. -/
def partOK (p : CronPart) (lo hi : Nat) : Bool :=
  match p with
  | CronPart.atom v => decide (lo ≤ v ∧ v ≤ hi)
  | CronPart.rng a b s => decide (lo ≤ a ∧ b ≤ hi ∧ 1 ≤ s)

structure CronFields where
  minute : List CronPart
  hour : List CronPart
  dom : List CronPart
  month : List CronPart
  dow : List CronPart
deriving DecidableEq

/-- The five `_scheduleSanityCheckHelper` calls of `_scheduleSanityCheck`
(lines 1098-1102), plus non-emptiness of each field and a positive step
(the crontab library yields at least one part per field and a positive
`seq`; Python would raise on a zero step). -/
def fieldsOK (f : CronFields) : Bool :=
  f.minute.all (partOK · 0 59) && f.hour.all (partOK · 0 23)
    && f.dow.all (partOK · 0 7) && f.month.all (partOK · 1 12)
    && f.dom.all (partOK · 1 31)
    && !(f.minute.isEmpty) && !(f.hour.isEmpty) && !(f.dow.isEmpty)
    && !(f.month.isEmpty) && !(f.dom.isEmpty)

/-- Lines 1058-1064: the start of the day after `date_time`, computed by
trying `day + 1`, then the first of `month + 1`, then January 1 of
`year + 1`. -/
def tomorrowOf (now : DT) : DT :=
  if validDateB now.year now.month (now.day + 1) then
    ⟨now.year, now.month, now.day + 1, 0, 0, 0⟩
  else if validDateB now.year (now.month + 1) 1 then
    ⟨now.year, now.month + 1, 1, 0, 0, 0⟩
  else ⟨now.year + 1, 1, 1, 0, 0, 0⟩

def dayFloor (now : DT) : DT := ⟨now.year, now.month, now.day, 0, 0, 0⟩

def hourFloor (now : DT) : DT := ⟨now.year, now.month, now.day, now.hour, 0, 0⟩

def monthFloor (now : DT) : DT := ⟨now.year, now.month, 1, 0, 0, 0⟩

/-- `date_time_min + timedelta(seconds=59)`: `date_time_min` has
seconds 0, so adding 59 seconds only sets the seconds field. -/
def minFloor59 (now : DT) : DT :=
  ⟨now.year, now.month, now.day, now.hour, now.minute, 59⟩

/-- The minute loop (lines 1069-1075): the first minute in the field
whose instant is not before `date_time_min + 59s`. -/
def minuteSearch (f : CronFields) (m59 : DT) (y mo d h : Nat) : Option Nat :=
  (getRange f.minute).find? (fun mi => !decide (dtLT (mkDT y mo d h mi) m59))

/-- The hour loop (lines 1067-1077): hours are filtered by
`datetime(year, month, day, hour) >= date_time_hour`. -/
def hourSearch (f : CronFields) (hFl m59 : DT) (y mo d : Nat) :
    Option (Nat × Nat) :=
  (getRange f.hour).findSome? (fun h =>
    if decide (dtLE hFl (mkDT y mo d h 0)) then
      (minuteSearch f m59 y mo d h).map (fun mi => (h, mi))
    else none)

/-- The day loop (lines 1050-1084): skip invalid dates (`ValueError`,
line 1053-1054), keep days at or after today that satisfy the
day-of-week filter; for today search hours and minutes, for a later day
stop at the field firsts (the `firsttimenottoday` branch, lines
1078-1082; the flag is still true whenever that branch is reached, since
setting it false also sets `stop`). -/
def daySearch (f : CronFields) (now : DT) (y mo : Nat) :
    Option (Nat × Nat × Nat) :=
  (getRange f.dom).findSome? (fun d =>
    if validDateB y mo d then
      if decide (dtLE (dayFloor now) (mkDT y mo d 0 0)) then
        if decide (isoweekday y mo d ∈ getRange f.dow) then
          if decide (dtLT (mkDT y mo d 0 0) (tomorrowOf now)) then
            (hourSearch f (hourFloor now) (minFloor59 now) y mo d).map
              (fun p => (d, p.1, p.2))
          else some (d, getFirstD f.hour, getFirstD f.minute)
        else none
      else none
    else none)

/-- The month loop (lines 1048-1049): months are filtered by
`datetime(year, month, 1) >= date_time_month`. -/
def monthSearch (f : CronFields) (now : DT) (y : Nat) :
    Option (Nat × Nat × Nat × Nat) :=
  (getRange f.month).findSome? (fun mo =>
    if decide (dtLE (monthFloor now) (mkDT y mo 1 0 0)) then
      (daySearch f now y mo).map (fun t => (mo, t.1, t.2.1, t.2.2))
    else none)

/-- The unbounded year loop (lines 1047, 1090): `year` is incremented on
exhaustion; once it exceeds 9999, `datetime(year, month, 1)` raises
`ValueError` (uncaught), modelled as `none`. -/
def yearSearch (f : CronFields) (now : DT) : Nat → Nat → Option DT
  | 0, _ => none
  | fuel + 1, y =>
    if y > 9999 then none
    else
      match monthSearch f now y with
      | some (mo, d, h, mi) => some (mkDT y mo d h mi)
      | none => yearSearch f now fuel (y + 1)

/-- `_getNextSchedule(date_time, schedule)`: `none` models the
`ValueError` escape once the year exceeds `datetime.MAXYEAR` (the fuel
covers every year from `date_time.year` through 10000). -/
def getNextSched (f : CronFields) (now : DT) : Option DT :=
  yearSearch f now (10001 - now.year) now.year

theorem daysInMonth_le31 (y m : Nat) : daysInMonth y m ≤ 31 := by
  unfold daysInMonth
  split_ifs <;> omega

theorem minuteSearch_some {f : CronFields} {m59 : DT} {y mo d h mi : Nat}
    (hm : minuteSearch f m59 y mo d h = some mi) :
    mi ∈ getRange f.minute ∧ m59.key ≤ (mkDT y mo d h mi).key := by
  unfold minuteSearch at hm
  refine ⟨List.mem_of_find?_eq_some hm, ?_⟩
  have hp := List.find?_some hm
  simp only [Bool.not_eq_true', decide_eq_false_iff_not] at hp
  exact Nat.le_of_not_lt hp

theorem hourSearch_some {f : CronFields} {hFl m59 : DT} {y mo d h mi : Nat}
    (hh : hourSearch f hFl m59 y mo d = some (h, mi)) :
    h ∈ getRange f.hour ∧ minuteSearch f m59 y mo d h = some mi := by
  unfold hourSearch at hh
  obtain ⟨a, ha, hfa⟩ := List.exists_of_findSome?_eq_some hh
  by_cases hc : dtLE hFl (mkDT y mo d a 0)
  · rw [if_pos (by simpa using hc)] at hfa
    obtain ⟨mi2, hmi2, heq⟩ := Option.map_eq_some'.mp hfa
    obtain ⟨rfl, rfl⟩ := Prod.mk.injEq .. ▸ And.intro (congrArg Prod.fst heq) (congrArg Prod.snd heq)
    exact ⟨ha, hmi2⟩
  · rw [if_neg (by simpa using hc)] at hfa
    exact absurd hfa (by simp)

theorem daySearch_some {f : CronFields} {now : DT} {y mo d h mi : Nat}
    (hd : daySearch f now y mo = some (d, h, mi)) :
    d ∈ getRange f.dom ∧ validDateB y mo d = true ∧
    (dayFloor now).key ≤ (mkDT y mo d 0 0).key ∧
    isoweekday y mo d ∈ getRange f.dow ∧
    (((mkDT y mo d 0 0).key < (tomorrowOf now).key ∧
        hourSearch f (hourFloor now) (minFloor59 now) y mo d = some (h, mi)) ∨
      ((tomorrowOf now).key ≤ (mkDT y mo d 0 0).key ∧
        h = getFirstD f.hour ∧ mi = getFirstD f.minute)) := by
  unfold daySearch at hd
  obtain ⟨a, ha, hfa⟩ := List.exists_of_findSome?_eq_some hd
  by_cases hv : validDateB y mo a = true
  · rw [if_pos hv] at hfa
    by_cases hge : dtLE (dayFloor now) (mkDT y mo a 0 0)
    · rw [if_pos (by simpa using hge)] at hfa
      by_cases hdow : isoweekday y mo a ∈ getRange f.dow
      · rw [if_pos (by simpa using hdow)] at hfa
        by_cases htod : dtLT (mkDT y mo a 0 0) (tomorrowOf now)
        · rw [if_pos (by simpa using htod)] at hfa
          obtain ⟨p, hp, heq⟩ := Option.map_eq_some'.mp hfa
          have hda : a = d := congrArg (fun t => t.1) heq
          have hhp : p.1 = h := by
            have := congrArg (fun t => t.2.1) heq
            simpa using this
          have hmp : p.2 = mi := by
            have := congrArg (fun t => t.2.2) heq
            simpa using this
          subst hda
          refine ⟨ha, hv, hge, hdow, Or.inl ⟨htod, ?_⟩⟩
          rw [← hhp, ← hmp]
          exact hp
        · rw [if_neg (by simpa using htod)] at hfa
          have hda : a = d := congrArg (fun t => t.1) (Option.some.inj hfa)
          have hhp : getFirstD f.hour = h := by
            have := congrArg (fun t => t.2.1) (Option.some.inj hfa)
            simpa using this
          have hmp : getFirstD f.minute = mi := by
            have := congrArg (fun t => t.2.2) (Option.some.inj hfa)
            simpa using this
          subst hda
          exact ⟨ha, hv, hge, hdow,
            Or.inr ⟨Nat.le_of_not_lt (by simpa using htod), hhp.symm, hmp.symm⟩⟩
      · rw [if_neg (by simpa using hdow)] at hfa
        exact absurd hfa (by simp)
    · rw [if_neg (by simpa using hge)] at hfa
      exact absurd hfa (by simp)
  · rw [if_neg hv] at hfa
    exact absurd hfa (by simp)

theorem monthSearch_some {f : CronFields} {now : DT} {y mo d h mi : Nat}
    (hm : monthSearch f now y = some (mo, d, h, mi)) :
    mo ∈ getRange f.month ∧ (monthFloor now).key ≤ (mkDT y mo 1 0 0).key ∧
    daySearch f now y mo = some (d, h, mi) := by
  unfold monthSearch at hm
  obtain ⟨a, ha, hfa⟩ := List.exists_of_findSome?_eq_some hm
  by_cases hc : dtLE (monthFloor now) (mkDT y a 1 0 0)
  · rw [if_pos (by simpa using hc)] at hfa
    obtain ⟨t, ht, heq⟩ := Option.map_eq_some'.mp hfa
    have hma : a = mo := congrArg (fun u => u.1) heq
    have h1 : t.1 = d := by
      have := congrArg (fun u => u.2.1) heq
      simpa using this
    have h2 : t.2.1 = h := by
      have := congrArg (fun u => u.2.2.1) heq
      simpa using this
    have h3 : t.2.2 = mi := by
      have := congrArg (fun u => u.2.2.2) heq
      simpa using this
    subst hma
    refine ⟨ha, hc, ?_⟩
    rw [show (d, h, mi) = (t.1, t.2.1, t.2.2) from by rw [h1, h2, h3], ← ht]
  · rw [if_neg (by simpa using hc)] at hfa
    exact absurd hfa (by simp)

theorem yearSearch_some (f : CronFields) (now : DT) :
    ∀ (fuel y : Nat) (r : DT), yearSearch f now fuel y = some r →
    ∃ y2 mo d h mi, r = mkDT y2 mo d h mi ∧
      monthSearch f now y2 = some (mo, d, h, mi) := by
  intro fuel
  induction fuel with
  | zero =>
    intro y r h
    simp [yearSearch] at h
  | succ fuel ih =>
    intro y r h
    rw [yearSearch] at h
    by_cases hy : y > 9999
    · rw [if_pos hy] at h
      exact absurd h (by simp)
    · rw [if_neg hy] at h
      cases hm : monthSearch f now y with
      | none =>
        rw [hm] at h
        exact ih (y + 1) r h
      | some t =>
        rw [hm] at h
        refine ⟨y, t.1, t.2.1, t.2.2.1, t.2.2.2, (Option.some.inj h).symm, ?_⟩
        rw [hm]

theorem now_lt_tomorrow (now : DT) (hwf : DTWF now) :
    now.key < (tomorrowOf now).key := by
  obtain ⟨h1, h2, h3, h4, h5, h6, h7⟩ := hwf
  have h31 := daysInMonth_le31 now.year now.month
  unfold tomorrowOf
  by_cases hv1 : validDateB now.year now.month (now.day + 1) = true
  · rw [if_pos hv1]
    simp only [DT.key]
    omega
  · rw [if_neg hv1]
    by_cases hv2 : validDateB now.year (now.month + 1) 1 = true
    · rw [if_pos hv2]
      simp only [DT.key]
      omega
    · rw [if_neg hv2]
      simp only [DT.key]
      omega

theorem getNextSched_after (f : CronFields) (now : DT) (r : DT)
    (hwf : DTWF now) (h : getNextSched f now = some r) :
    now.key < r.key := by
  unfold getNextSched at h
  obtain ⟨y, mo, d, hh, mi, hr, hms⟩ := yearSearch_some f now _ _ r h
  obtain ⟨-, -, hds⟩ := monthSearch_some hms
  obtain ⟨-, -, -, -, hcase⟩ := daySearch_some hds
  subst hr
  rcases hcase with ⟨-, hhs⟩ | ⟨hge, hh1, hm1⟩
  · obtain ⟨-, hmins⟩ := hourSearch_some hhs
    obtain ⟨-, hm59⟩ := minuteSearch_some hmins
    obtain ⟨h1, h2, h3, h4, h5, h6, h7⟩ := hwf
    simp only [DT.key, mkDT, minFloor59] at hm59 ⊢
    omega
  · have htom := now_lt_tomorrow now hwf
    have hmono : (mkDT y mo d 0 0).key ≤ (mkDT y mo d hh mi).key := by
      simp only [DT.key, mkDT]
      omega
    omega

theorem getNextSched_domdow (f : CronFields) (now : DT) (r : DT)
    (h : getNextSched f now = some r) :
    r.day ∈ getRange f.dom ∧ isoweekday r.year r.month r.day ∈ getRange f.dow
      ∧ r.month ∈ getRange f.month := by
  unfold getNextSched at h
  obtain ⟨y, mo, d, hh, mi, hr, hms⟩ := yearSearch_some f now _ _ r h
  obtain ⟨hmon, -, hds⟩ := monthSearch_some hms
  obtain ⟨hdom, -, -, hdow, -⟩ := daySearch_some hds
  subst hr
  exact ⟨hdom, hdow, hmon⟩

/-! ## ScheduleCron.getNextSchedules (lines 950-999)

A row of an installed schedule: the command words and the five parsed
time fields.  The optional `name=INTEGER` parameters are not modelled
(rows considered contain none); `look_backward` is `False`, so the
backward list stays empty and the result is the future list alone. -/

structure EvalRow where
  cmd : List String
  fields : CronFields

/-- Lines 967-984: extract `(pluginclassname, commandstring)`; a row
whose command is not PLUGIN or SCRIPT adds an error and is skipped
(`none`). -/
def rowMeta (r : EvalRow) : Option (String × String) :=
  match r.cmd with
  | [] => none
  | t :: rest =>
    if rest = [] then none
    else if lowerStr t = "plugin" then
      some (rest.headI, String.intercalate " " rest.tail)
    else if lowerStr t = "script" then
      some ("", String.intercalate " " rest)
    else none

/-- The accumulation of `future_schedules` (lines 992-997): a strictly
earlier instant restarts the list, an equal instant appends, a later one
is dropped.  A `none` from `_getNextSchedule` is the uncaught
`ValueError` aborting the whole call. -/
def schedFoldStep (now : DT) (acc : Option (List (DT × String × String)))
    (row : EvalRow) : Option (List (DT × String × String)) :=
  match acc with
  | none => none
  | some fs =>
    match rowMeta row with
    | none => some fs
    | some meta =>
      match getNextSched row.fields now with
      | none => none
      | some nextdt =>
        match fs with
        | [] => some [(nextdt, meta)]
        | x :: _ =>
          if dtLT nextdt x.1 then some [(nextdt, meta)]
          else if nextdt = x.1 then some (fs ++ [(nextdt, meta)])
          else some fs

def getNextScheds (rows : List EvalRow) (now : DT) :
    Option (List (DT × String × String)) :=
  rows.foldl (schedFoldStep now) (some [])

theorem schedFold_none (now : DT) (rows : List EvalRow) :
    rows.foldl (schedFoldStep now) none = none := by
  induction rows with
  | nil => rfl
  | cons r rest ih => exact ih

def schedAccInv (now : DT) (fs : List (DT × String × String)) : Prop :=
  fs = [] ∨ ∃ x0 xs, fs = x0 :: xs ∧ now.key < x0.1.key ∧ ∀ x ∈ fs, x.1 = x0.1

theorem schedFoldStep_inv (now : DT) (hwf : DTWF now) (row : EvalRow)
    (fs : List (DT × String × String)) (hinv : schedAccInv now fs)
    (fs2 : List (DT × String × String))
    (h : schedFoldStep now (some fs) row = some fs2) :
    schedAccInv now fs2 := by
  cases hm : rowMeta row with
  | none =>
    simp only [schedFoldStep, hm] at h
    rw [← Option.some.inj h]
    exact hinv
  | some meta =>
    cases hn : getNextSched row.fields now with
    | none => simp [schedFoldStep, hm, hn] at h
    | some nextdt =>
      have hlt := getNextSched_after row.fields now nextdt hwf hn
      cases fs with
      | nil =>
        simp only [schedFoldStep, hm, hn] at h
        rw [← Option.some.inj h]
        exact Or.inr ⟨(nextdt, meta), [], rfl, hlt, by simp⟩
      | cons x xs =>
        simp only [schedFoldStep, hm, hn] at h
        by_cases hc1 : dtLT nextdt x.1
        · rw [if_pos hc1] at h
          rw [← Option.some.inj h]
          exact Or.inr ⟨(nextdt, meta), [], rfl, hlt, by simp⟩
        · rw [if_neg hc1] at h
          by_cases hc2 : nextdt = x.1
          · rw [if_pos hc2] at h
            rw [← Option.some.inj h]
            rcases hinv with hnil | ⟨x0, xs0, hfs, hx0, hall⟩
            · exact absurd hnil (by simp)
            · injection hfs with hfs1 hfs2
              subst hfs1
              refine Or.inr ⟨x, xs ++ [(nextdt, meta)], by simp, hx0, ?_⟩
              intro z hz
              rcases List.mem_append.mp hz with hz1 | hz2
              · exact hall z hz1
              · have hze : z = (nextdt, meta) := by simpa using hz2
                rw [hze, hc2]
          · rw [if_neg hc2] at h
            rw [← Option.some.inj h]
            exact hinv

theorem schedFold_inv (now : DT) (hwf : DTWF now) :
    ∀ (rows : List EvalRow) (fs : List (DT × String × String)),
    schedAccInv now fs →
    ∀ lst, rows.foldl (schedFoldStep now) (some fs) = some lst →
    schedAccInv now lst := by
  intro rows
  induction rows with
  | nil =>
    intro fs hinv lst h
    rw [← Option.some.inj h]
    exact hinv
  | cons r rest ih =>
    intro fs hinv lst h
    rw [List.foldl_cons] at h
    cases hs : schedFoldStep now (some fs) r with
    | none =>
      rw [hs, schedFold_none] at h
      exact absurd h (by simp)
    | some fs2 =>
      rw [hs] at h
      exact ih fs2 (schedFoldStep_inv now hwf r fs hinv fs2 hs) lst h

/-- C4 (amended): `getNextSchedules(now, look_backward = False)` either
aborts with a `ValueError` (an entry with no satisfiable date keeps
advancing the year until `datetime` rejects year 10000 — there is no
4-year bound and no empty-list fallback for unsatisfiable entries), or
returns a list that is empty only when every row was skipped as
malformed, and otherwise has a first element whose instant is strictly
after `now`, with every element sharing that same instant. -/
theorem C4_amended (rows : List EvalRow) (now : DT)
    (hwf : DTWF now) (lst : List (DT × String × String))
    (h : getNextScheds rows now = some lst) :
    lst = [] ∨ ∃ x0 xs, lst = x0 :: xs ∧ now.key < x0.1.key
      ∧ ∀ x ∈ lst, x.1 = x0.1 :=
  schedFold_inv now hwf rows [] (Or.inl rfl) lst h

def apr31Fields : CronFields :=
  { minute := [CronPart.atom 0], hour := [CronPart.atom 0],
    dom := [CronPart.atom 31], month := [CronPart.atom 4],
    dow := [CronPart.rng 0 7 1] }

/-- C4 is false as stated: the schedule `0 0 31 4 *` (April 31st, which
passes the construction-time sanity check but never denotes a date)
makes `getNextSchedules` raise `ValueError` once the year search passes
9999 — it returns neither an empty list nor a list of instants. -/
theorem C4_counterexample :
    fieldsOK apr31Fields = true ∧
    getNextScheds [{ cmd := ["SCRIPT", "x"], fields := apr31Fields }]
      ⟨9998, 1, 1, 0, 0, 0⟩ = none := by
  decide

def c4wFields : CronFields :=
  { minute := [CronPart.atom 45], hour := [CronPart.atom 10],
    dom := [CronPart.rng 1 31 1], month := [CronPart.rng 1 12 1],
    dow := [CronPart.rng 0 7 1] }

theorem C4_witness :
    (⟨2026, 10, 12, 9, 30, 0⟩ : DT).key
      < (⟨2026, 10, 12, 10, 45, 0⟩ : DT).key := by
  have h := C4_amended [{ cmd := ["SCRIPT", "x"], fields := c4wFields }]
    ⟨2026, 10, 12, 9, 30, 0⟩ (by decide)
    [(⟨2026, 10, 12, 10, 45, 0⟩, "", "x")] (by decide)
  rcases h with hnil | ⟨x0, xs, hl, hlt, -⟩
  · exact absurd hnil (by decide)
  · injection hl with h1 h2
    rw [← h1] at hlt
    exact hlt

/-- C5: whenever `_getNextSchedule` produces a fire instant, its day
satisfies the day-of-month filter and its `isoweekday` satisfies the
day-of-week filter — the two restrictions intersect; a day matching only
one of them is never selected. -/
theorem C5_intersection (f : CronFields) (now : DT) (r : DT)
    (h : getNextSched f now = some r) :
    r.day ∈ getRange f.dom ∧ isoweekday r.year r.month r.day ∈ getRange f.dow := by
  obtain ⟨h1, h2, -⟩ := getNextSched_domdow f now r h
  exact ⟨h1, h2⟩

def fri13Fields : CronFields :=
  { minute := [CronPart.atom 0], hour := [CronPart.atom 0],
    dom := [CronPart.atom 13], month := [CronPart.rng 1 12 1],
    dow := [CronPart.atom 5] }

theorem C5_witness :
    (⟨2026, 11, 13, 0, 0, 0⟩ : DT).day ∈ getRange fri13Fields.dom ∧
    isoweekday 2026 11 13 ∈ getRange fri13Fields.dow := by
  have h := C5_intersection fri13Fields ⟨2026, 10, 12, 0, 0, 0⟩
    ⟨2026, 11, 13, 0, 0, 0⟩ (by decide)
  exact h

def feb30Fields : CronFields :=
  { minute := [CronPart.atom 0], hour := [CronPart.atom 0],
    dom := [CronPart.atom 30], month := [CronPart.atom 2],
    dow := [CronPart.rng 0 7 1] }

/-- C10 is false as stated: the entry `0 0 30 2 *` passes the sanity
check, yet `_getNextSchedule` never reaches a satisfying tuple — the
year loop advances until `datetime(year, month, 1)` rejects year 10000
and the call aborts with `ValueError` (modelled as `none`). -/
theorem C10_counterexample :
    fieldsOK feb30Fields = true ∧
    getNextSched feb30Fields ⟨9998, 1, 1, 0, 0, 0⟩ = none := by
  decide

/-- C10 (amended): for every entry and reference datetime the search
terminates — either with an instant strictly after the reference that
satisfies the entry's day-of-month and day-of-week filters, or by
raising `ValueError` once the year exceeds 9999 (`datetime.MAXYEAR`);
it never loops forever, but entries with no satisfiable date (e.g.
day 30 in month 2) do not fire. -/
theorem C10_amended (f : CronFields) (now : DT) (hwf : DTWF now) :
    (∃ r, getNextSched f now = some r ∧ now.key < r.key ∧
      r.day ∈ getRange f.dom ∧
      isoweekday r.year r.month r.day ∈ getRange f.dow) ∨
    getNextSched f now = none := by
  cases hr : getNextSched f now with
  | none => exact Or.inr rfl
  | some r =>
    obtain ⟨h1, h2, -⟩ := getNextSched_domdow f now r hr
    exact Or.inl ⟨r, rfl, getNextSched_after f now r hwf hr, h1, h2⟩

def c10wFields : CronFields :=
  { minute := [CronPart.atom 0], hour := [CronPart.atom 5],
    dom := [CronPart.rng 1 31 1], month := [CronPart.rng 1 12 1],
    dow := [CronPart.rng 0 7 1] }

theorem C10_witness :
    (⟨2026, 3, 1, 12, 0, 0⟩ : DT).key < (⟨2026, 3, 2, 5, 0, 0⟩ : DT).key ∧
    (⟨2026, 3, 2, 5, 0, 0⟩ : DT).day ∈ getRange c10wFields.dom := by
  rcases C10_amended c10wFields ⟨2026, 3, 1, 12, 0, 0⟩ (by decide) with
    ⟨r, hr, hlt, hdom, -⟩ | hnone
  · have hre : r = ⟨2026, 3, 2, 5, 0, 0⟩ := by
      have : getNextSched c10wFields ⟨2026, 3, 1, 12, 0, 0⟩
          = some ⟨2026, 3, 2, 5, 0, 0⟩ := by decide
      rw [this] at hr
      exact (Option.some.inj hr).symm
    rw [hre] at hlt hdom
    exact ⟨hlt, hdom⟩
  · exact absurd hnone (by decide)
